import Mathlib

/-!
Shallow embedding of `libsolidity/analysis/ConstantEvaluator.cpp`:
the constant-expression evaluator of the solidity frontend.  The evaluator
folds literals, unary and binary operations, constant identifiers and
single-element tuples to exact rational values, memoizing per AST node,
delegating non-literal typing questions to the external type system, and
reporting diagnostics through an error-reporter sink.
-/

namespace ConstEval

/-! ## Host arithmetic

The C++ code computes on `boost::rational<bigint>`.  `bigint` division and
remainder truncate toward zero; bitwise operations behave as on a
twos-complement integer of unbounded width.  We model `bigint` as `Int`
(with `Int.tdiv` / `Int.tmod` for the truncating operations) and the
rational operations as kernel-computable wrappers around `mkRat`, proved
below to agree with the field operations of `ℚ`.
-/

/-- Twos-complement bitwise OR on unbounded integers (`bigint` `operator|`). -/
def intOr : Int → Int → Int
  | .ofNat m, .ofNat n => .ofNat (m ||| n)
  | .ofNat m, .negSucc n => .negSucc (n - (n &&& m))
  | .negSucc m, .ofNat n => .negSucc (m - (m &&& n))
  | .negSucc m, .negSucc n => .negSucc (m &&& n)

/-- Twos-complement bitwise AND on unbounded integers (`bigint` `operator&`). -/
def intAnd : Int → Int → Int
  | .ofNat m, .ofNat n => .ofNat (m &&& n)
  | .ofNat m, .negSucc n => .ofNat (m - (m &&& n))
  | .negSucc m, .ofNat n => .ofNat (n - (n &&& m))
  | .negSucc m, .negSucc n => .negSucc (m ||| n)

/-- Twos-complement bitwise XOR on unbounded integers (`bigint` `operator^`). -/
def intXor : Int → Int → Int
  | .ofNat m, .ofNat n => .ofNat (m ^^^ n)
  | .ofNat m, .negSucc n => .negSucc (m ^^^ n)
  | .negSucc m, .ofNat n => .negSucc (m ^^^ n)
  | .negSucc m, .negSucc n => .ofNat (m ^^^ n)

/-- Embedding of the implicit `bigint` to `rational` conversion. -/
def intToRat (n : Int) : ℚ := mkRat n 1

/-- Exact rational addition, computed on normalized numerator/denominator
pairs exactly as `boost::rational` does. -/
def ratAdd (a b : ℚ) : ℚ := mkRat (a.num * b.den + b.num * a.den) (a.den * b.den)

/-- Exact rational subtraction. -/
def ratSub (a b : ℚ) : ℚ := mkRat (a.num * b.den - b.num * a.den) (a.den * b.den)

/-- Exact rational multiplication. -/
def ratMul (a b : ℚ) : ℚ := mkRat (a.num * b.num) (a.den * b.den)

/-- Exact rational division (the result for a zero divisor is irrelevant:
the evaluator models the `boost::bad_rational` throw separately). -/
def ratDiv (a b : ℚ) : ℚ := Rat.divInt (a.num * b.den) (a.den * b.num)

/-- Truncation of a rational toward zero, the specification-side description
of the integer produced by `numerator-of-quotient / denominator-of-quotient`. -/
def ratTrunc (q : ℚ) : Int := if 0 ≤ q then ⌊q⌋ else ⌈q⌉

theorem intToRat_eq (n : Int) : intToRat n = (n : ℚ) := by
  rw [intToRat, Rat.mkRat_eq_div]; simp

theorem den_cast_ne_zero (q : ℚ) : ((q.den : ℚ)) ≠ 0 := by
  exact_mod_cast q.den_nz

theorem num_eq_mul_den (q : ℚ) : (q.num : ℚ) = q * q.den :=
  (div_eq_iff (den_cast_ne_zero q)).mp (Rat.num_div_den q)

theorem ratAdd_eq (a b : ℚ) : ratAdd a b = a + b := by
  rw [ratAdd, Rat.mkRat_eq_div]
  push_cast
  rw [div_eq_iff (mul_ne_zero (den_cast_ne_zero a) (den_cast_ne_zero b)),
    num_eq_mul_den a, num_eq_mul_den b]
  ring

theorem ratSub_eq (a b : ℚ) : ratSub a b = a - b := by
  rw [ratSub, Rat.mkRat_eq_div]
  push_cast
  rw [div_eq_iff (mul_ne_zero (den_cast_ne_zero a) (den_cast_ne_zero b)),
    num_eq_mul_den a, num_eq_mul_den b]
  ring

theorem ratMul_eq (a b : ℚ) : ratMul a b = a * b := by
  rw [ratMul, Rat.mkRat_eq_div]
  push_cast
  rw [div_eq_iff (mul_ne_zero (den_cast_ne_zero a) (den_cast_ne_zero b)),
    num_eq_mul_den a, num_eq_mul_den b]
  ring

theorem ratDiv_eq (a b : ℚ) : ratDiv a b = a / b := by
  rw [ratDiv, Rat.divInt_eq_div]
  by_cases hb : b = 0
  · subst hb; simp
  · have hbn : ((b.num : ℚ)) ≠ 0 := by
      intro h
      exact hb (Rat.num_eq_zero.mp (by exact_mod_cast h))
    push_cast
    rw [div_eq_div_iff (by exact mul_ne_zero (den_cast_ne_zero a) hbn) hb,
      num_eq_mul_den a, num_eq_mul_den b]
    ring

/-- The truncating integer division of a normalized numerator by its
denominator is exactly truncation of the rational toward zero. -/
theorem tdiv_num_den (q : ℚ) : Int.tdiv q.num q.den = ratTrunc q := by
  rcases le_or_lt 0 q.num with h | h
  · have hq : (0 : ℚ) ≤ q := Rat.num_nonneg.mp h
    rw [ratTrunc, if_pos hq, Rat.floor_def, Int.tdiv_eq_ediv h (by positivity)]
  · have hq : ¬ (0 : ℚ) ≤ q := by
      intro hc
      exact absurd (Rat.num_nonneg.mpr hc) (by omega)
    rw [ratTrunc, if_neg hq]
    have h1 : Int.tdiv q.num q.den = -Int.tdiv (-q.num) q.den := by
      rw [Int.neg_tdiv, neg_neg]
    have h2 : Int.tdiv (-q.num) q.den = ⌊-q⌋ := by
      rw [Int.tdiv_eq_ediv (by omega) (by positivity)]
      rw [Rat.floor_def, Rat.num_neg_eq_neg_num, Rat.den_neg_eq_den]
    have h3 : (⌈q⌉ : ℤ) = -⌊-q⌋ := by
      conv_lhs => rw [← neg_neg q]
      rw [Int.ceil_neg]
    rw [h1, h2, h3]

/-! ## Tokens and types

`Token` models the subset of `solidity::langutil::Token` relevant to the
evaluator: the eight operators of the direct-fold switch, the comparison
operators recognized by `TokenTraits::isCompareOp`, and a representative
further operator (`Comma`) that would fall into the `default` branch.
`Ty` models `Type const*` values by category: a rational-number literal
type carries its exact value (`RationalNumberType::value()`), other
categories are opaque tags.
-/

inductive Token where
  | BitOr | BitAnd | BitXor | Add | Sub | Mul | Div | Mod
  | LessThan | GreaterThan | LessThanOrEqual | GreaterThanOrEqual | Equal | NotEqual
  | Comma
deriving DecidableEq, Repr

/-- `TokenTraits::isCompareOp`. -/
def Token.isCompareOp : Token → Bool
  | .LessThan | .GreaterThan | .LessThanOrEqual | .GreaterThanOrEqual
  | .Equal | .NotEqual => true
  | _ => false

/-- `TokenTraits::toString`, for diagnostic messages. -/
def Token.toText : Token → String
  | .BitOr => "|"
  | .BitAnd => "&"
  | .BitXor => "^"
  | .Add => "+"
  | .Sub => "-"
  | .Mul => "*"
  | .Div => "/"
  | .Mod => "%"
  | .LessThan => "<"
  | .GreaterThan => ">"
  | .LessThanOrEqual => "<="
  | .GreaterThanOrEqual => ">="
  | .Equal => "=="
  | .NotEqual => "!="
  | .Comma => ","

/-- `Type::Category`, restricted to the cases the evaluator inspects. -/
inductive Category where
  | RationalNumber | Integer | BoolCat | OtherCat
deriving DecidableEq, Repr

/-- A `Type const*` value.  `RationalNumberType` carries its exact rational
value; integer types and all remaining types are opaque tags. -/
inductive Ty where
  | RationalNumberType (value : ℚ)
  | IntegerType (tag : Nat)
  | BoolType
  | OtherType (tag : Nat)
deriving DecidableEq, Repr

def Ty.category : Ty → Category
  | .RationalNumberType _ => .RationalNumber
  | .IntegerType _ => .Integer
  | .BoolType => .BoolCat
  | .OtherType _ => .OtherCat

/-- `RationalNumberType::isFractional`. -/
def Ty.isFractional : Ty → Bool
  | .RationalNumberType v => v.den ≠ 1
  | _ => false

/-- External type-system capabilities the evaluator consumes
(`Type::unaryOperatorResult`, `Type::binaryOperatorResult`,
`TypeProvider::forLiteral`, `Type::toString`); out of the evaluator
scope, supplied as an oracle. -/
structure TypeSystem where
  unaryOperatorResult : Ty → Token → Option Ty
  binaryOperatorResult : Ty → Token → Ty → Option Ty
  forLiteral : Nat → Option Ty
  typeName : Ty → String

/-! ## AST, declarations, evaluation state -/

/-- Node identity (the address of the AST node in the C++ code); memoization
and source locations are keyed by it. -/
abbrev NodeId := Nat

/-- Expression nodes the evaluator visits.  `Identifier` carries the
resolved declaration reference (`none` when the referenced declaration is
not a `VariableDeclaration`). -/
inductive Expr where
  | Literal (id : NodeId) (lit : Nat)
  | UnaryOperation (id : NodeId) (op : Token) (subExpression : Expr)
  | BinaryOperation (id : NodeId) (op : Token) (leftExpression rightExpression : Expr)
  | Identifier (id : NodeId) (referencedDeclaration : Option Nat)
  | TupleExpression (id : NodeId) (isInlineArray : Bool) (components : List Expr)
deriving Repr

def Expr.nodeId : Expr → NodeId
  | .Literal i _ => i
  | .UnaryOperation i _ _ => i
  | .BinaryOperation i _ _ _ => i
  | .Identifier i _ => i
  | .TupleExpression i _ _ => i

/-- The fields of a `VariableDeclaration` the evaluator reads:
`isConstant()`, `value()` (the initializer) and the declared/inferred type
stored in the declaration annotation. -/
structure VariableDeclaration where
  isConstant : Bool
  value : Option Expr
  declaredType : Ty

/-- The surrounding compilation unit: the type-system oracle and the
declaration table identifiers resolve into. -/
structure Env where
  types : TypeSystem
  decls : Nat → Option VariableDeclaration

/-- `ConstantEvaluator::TypedValue`: both pointers may be null. -/
structure TypedValue where
  sourceType : Option Ty
  evaluatedValue : Option Ty
deriving DecidableEq, Repr

/-- One diagnostic pushed to the `ErrorReporter` sink. -/
structure Diag where
  errorId : Nat
  isFatal : Bool
  location : NodeId
  message : String
deriving DecidableEq, Repr

/-- The mutable state of one evaluation session: the memo table
(`m_evaluations`), the reported diagnostics, the recursion-depth counter
(`m_depth`), and a ghost counter of type-system oracle invocations used to
observe delegation. -/
structure EvalState where
  evaluations : List (NodeId × TypedValue)
  reported : List Diag
  depth : Nat
  oracleCalls : Nat
deriving DecidableEq, Repr

def emptyState : EvalState := ⟨[], [], 0, 0⟩

/-- Lookup by node identity in the memo table (latest entry wins, matching
`std::map` update semantics with insertion at the front). -/
def lookupEval : List (NodeId × TypedValue) → NodeId → Option TypedValue
  | [], _ => none
  | (k, v) :: rest, n => if k = n then some v else lookupEval rest n

/-- `ConstantEvaluator::result`. -/
def EvalState.result (st : EvalState) (n : NodeId) : Option TypedValue :=
  lookupEval st.evaluations n

/-- `ConstantEvaluator::evaluatedValue`. -/
def EvalState.evaluatedValue (st : EvalState) (n : NodeId) : Option Ty :=
  match st.result n with
  | some tv => tv.evaluatedValue
  | none => none

/-- `ConstantEvaluator::sourceType`. -/
def EvalState.srcType (st : EvalState) (n : NodeId) : Option Ty :=
  match st.result n with
  | some tv => tv.sourceType
  | none => none

/-- `ConstantEvaluator::evaluated`. -/
def EvalState.evaluated (st : EvalState) (n : NodeId) : Bool :=
  (st.result n).isSome

/-- `ConstantEvaluator::setResult`: store only a present result whose
evaluated value is a rational-number-category type. -/
def setResult (st : EvalState) (n : NodeId) (r : Option TypedValue) : EvalState :=
  match r with
  | some tv =>
    match tv.evaluatedValue with
    | some v =>
      if v.category = Category.RationalNumber then
        { st with evaluations := (n, tv) :: st.evaluations }
      else st
    | none => st
  | none => st

/-- `ConstantEvaluator::setValue`. -/
def setValue (st : EvalState) (n : NodeId) (v : Option Ty) : EvalState :=
  setResult st n (some ⟨v, v⟩)

/-- `ErrorReporter::typeError`: recoverable, evaluation continues. -/
def reportTypeError (st : EvalState) (i : Nat) (loc : NodeId) (msg : String) : EvalState :=
  { st with reported := st.reported ++ [⟨i, false, loc, msg⟩] }

/-- The diagnostic part of `ErrorReporter::fatalTypeError` (the throw is
modelled at the call site). -/
def reportFatal (st : EvalState) (i : Nat) (loc : NodeId) (msg : String) : EvalState :=
  { st with reported := st.reported ++ [⟨i, true, loc, msg⟩] }

/-- Abnormal control flow leaving the evaluator. -/
inductive Abort where
  | FatalError
  | AssertFailure (msg : String)
  | HostException
  | OutOfFuel
deriving DecidableEq, Repr

/-- Outcome of a state-threading evaluator step: normal return or an
exception unwinding with the state at the throw point. -/
inductive Res (α : Type) where
  | ok (val : α) (st : EvalState)
  | abort (a : Abort) (st : EvalState)
deriving DecidableEq, Repr

/-- Final state of a step, whatever the outcome. -/
def Res.finalState : Res α → EvalState
  | .ok _ st => st
  | .abort _ st => st

/-! ## The evaluator -/

/-- `ConstantEvaluator::evaluateBinary`: the direct exact-rational fold.
A zero right operand under `Div` reaches `boost::rational` division by
zero, which raises (`HostException`); only `Mod` checks for zero.  The
`default` branch of the switch is `solAssert(false)`. -/
def evaluateBinary (left right : ℚ) (op : Token) (loc : NodeId) (st : EvalState) :
    Res (Option ℚ) :=
  match op with
  | .BitOr => .ok (some (intToRat (intOr left.num right.num))) st
  | .BitAnd => .ok (some (intToRat (intAnd left.num right.num))) st
  | .BitXor => .ok (some (intToRat (intXor left.num right.num))) st
  | .Add => .ok (some (ratAdd left right)) st
  | .Sub => .ok (some (ratSub left right)) st
  | .Mul => .ok (some (ratMul left right)) st
  | .Div =>
    if right = intToRat 0 then
      .abort .HostException st
    else
      let fractionalResult := ratDiv left right
      .ok (some (intToRat (Int.tdiv fractionalResult.num fractionalResult.den))) st
  | .Mod =>
    if right = intToRat 0 then
      .ok none (reportTypeError st 1211 loc "Division by 0.")
    else if left.den = 1 ∧ right.den = 1 then
      .ok (some (intToRat (Int.tmod left.num right.num))) st
    else
      let tempValue := ratDiv left right
      .ok (some (ratSub left (ratMul (intToRat (Int.tdiv tempValue.num tempValue.den)) right))) st
  | _ => .abort (.AssertFailure "TODO") st

/-- The general (delegation) branch of `endVisit(BinaryOperation)`:
resolve the common type through the left operand type, fatal on failure,
otherwise store the comparison-boolean or the common type. -/
def binaryGeneralPath (env : Env) (nid : NodeId) (op : Token) (left right : Ty)
    (st : EvalState) : Res Unit :=
  let st := { st with oracleCalls := st.oracleCalls + 1 }
  match env.types.binaryOperatorResult left op right with
  | none =>
    .abort .FatalError (reportFatal st 6020 nid
      ("Operator " ++ op.toText ++ " not compatible with types "
        ++ env.types.typeName left ++ " and " ++ env.types.typeName right))
  | some commonType =>
    .ok () (setValue st nid (some (if op.isCompareOp then Ty.BoolType else commonType)))

/-- `ConstantEvaluator::endVisit(BinaryOperation)`. -/
def endVisitBinaryOperation (env : Env) (nid : NodeId) (op : Token)
    (lid rid : NodeId) (st : EvalState) : Res Unit :=
  match st.result lid, st.result rid with
  | some ltv, some rtv =>
    match ltv.evaluatedValue, rtv.evaluatedValue with
    | some left, some right =>
      match ltv.sourceType, rtv.sourceType with
      | some leftType, some rightType =>
        match left, right with
        | .RationalNumberType lv, .RationalNumberType rv =>
          if leftType.category = Category.Integer ∧ rightType.category = Category.Integer then
            if Ty.isFractional (.RationalNumberType lv) then
              .abort (.AssertFailure "") st
            else if Ty.isFractional (.RationalNumberType rv) then
              .abort (.AssertFailure "") st
            else
              match evaluateBinary lv rv op nid st with
              | .ok (some v) st1 =>
                .ok () (setResult st1 nid (some ⟨some leftType, some (.RationalNumberType v)⟩))
              | .ok none st1 => .ok () st1
              | .abort a st1 => .abort a st1
          else
            binaryGeneralPath env nid op left right st
        | _, _ => binaryGeneralPath env nid op left right st
      | _, _ => .abort (.AssertFailure "null sourceType") st
    | _, _ => .ok () st
  | _, _ => .ok () st

/-- `ConstantEvaluator::endVisit(UnaryOperation)`: delegate to the operand
value type. -/
def endVisitUnaryOperation (env : Env) (nid : NodeId) (op : Token) (subId : NodeId)
    (st : EvalState) : Res Unit :=
  match st.evaluatedValue subId with
  | some sub =>
    let st := { st with oracleCalls := st.oracleCalls + 1 }
    .ok () (setValue st nid (env.types.unaryOperatorResult sub op))
  | none => .ok () st

/-- `ConstantEvaluator::endVisit(Literal)`. -/
def endVisitLiteral (env : Env) (nid : NodeId) (lit : Nat) (st : EvalState) : Res Unit :=
  let st := { st with oracleCalls := st.oracleCalls + 1 }
  .ok () (setValue st nid (env.types.forLiteral lit))

/-- `ConstantEvaluator::endVisit(TupleExpression)`: forward the single
component of a non-array grouping tuple. -/
def endVisitTupleExpression (nid : NodeId) (isArr : Bool) (comps : List NodeId)
    (st : EvalState) : Res Unit :=
  match comps with
  | [c] => if isArr then .ok () st else .ok () (setValue st nid (st.evaluatedValue c))
  | _ => .ok () st

/-- Conversion dropping the returned value of a step. -/
def Res.toUnit : Res α → Res Unit
  | .ok _ st => .ok () st
  | .abort a st => .abort a st

/-- Conversion embedding a valueless step into the common result type of
the recursion dispatcher. -/
def Res.withNone : Res Unit → Res (Option Ty)
  | .ok _ st => .ok none st
  | .abort a st => .abort a st

/-- The pending recursive activations of the evaluator: plain AST
traversal, traversal of a component list, the identifier hook (the only
`endVisit` that recurses), and a full `evaluate` call.  The single
dispatcher below recurses structurally on fuel alone so that the kernel
can execute it; fuel is an artifact of the embedding and every theorem
below supplies enough of it for the depth-32 guard to fire first. -/
inductive Job where
  | visitJob (e : Expr)
  | visitListJob (es : List Expr)
  | identJob (nid : NodeId) (ref : Option Nat)
  | evalJob (e : Expr)

/-- The recursive core of `ConstantEvaluator`: `ASTConstVisitor` traversal
(children first, then the `endVisit` hook of the node; the evaluator
overrides no `visit`, so every node is entered), the recursive identifier
hook, and `evaluate` with its scoped depth increment. -/
def run (env : Env) : Nat → Job → EvalState → Res (Option Ty)
  | 0, _, st => .abort .OutOfFuel st
  | fuel + 1, .visitJob e, st =>
    match e with
    | .Literal nid lit => (endVisitLiteral env nid lit st).withNone
    | .UnaryOperation nid op sub =>
      match run env fuel (.visitJob sub) st with
      | .ok _ st1 => (endVisitUnaryOperation env nid op sub.nodeId st1).withNone
      | .abort a st1 => .abort a st1
    | .BinaryOperation nid op l r =>
      match run env fuel (.visitJob l) st with
      | .ok _ st1 =>
        match run env fuel (.visitJob r) st1 with
        | .ok _ st2 => (endVisitBinaryOperation env nid op l.nodeId r.nodeId st2).withNone
        | .abort a st2 => .abort a st2
      | .abort a st1 => .abort a st1
    | .Identifier nid ref => run env fuel (.identJob nid ref) st
    | .TupleExpression nid isArr comps =>
      match run env fuel (.visitListJob comps) st with
      | .ok _ st1 => (endVisitTupleExpression nid isArr (comps.map Expr.nodeId) st1).withNone
      | .abort a st1 => .abort a st1
  | _ + 1, .visitListJob [], st => .ok none st
  | fuel + 1, .visitListJob (e :: rest), st =>
    match run env fuel (.visitJob e) st with
    | .ok _ st1 => run env fuel (.visitListJob rest) st1
    | .abort a st1 => .abort a st1
  | fuel + 1, .identJob nid ref, st =>
    match ref with
    | none => .ok none st
    | some d =>
      match env.decls d with
      | none => .ok none st
      | some decl =>
        if !decl.isConstant then .ok none st
        else
          match decl.value with
          | none => .ok none st
          | some value =>
            let step : Res (Option Ty) :=
              if st.evaluated value.nodeId then .ok none st
              else if st.depth > 32 then
                .abort .FatalError (reportFatal st 5210 nid
                  "Cyclic constant definition (or maximum recursion depth exhausted).")
              else
                run env fuel (.evalJob value) st
            match step with
            | .ok _ st1 =>
              match st1.result value.nodeId with
              | some tv =>
                .ok none (setResult st1 nid (some ⟨some decl.declaredType, tv.evaluatedValue⟩))
              | none => .ok none st1
            | .abort a st1 => .abort a st1
  | fuel + 1, .evalJob e, st =>
    let st1 := { st with depth := st.depth + 1 }
    match run env fuel (.visitJob e) st1 with
    | .ok _ st2 => .ok (st2.evaluatedValue e.nodeId) { st2 with depth := st2.depth - 1 }
    | .abort a st2 => .abort a { st2 with depth := st2.depth - 1 }

/-- The visitor entry for one node (traverse children, run the hooks). -/
def visit (env : Env) (fuel : Nat) (e : Expr) (st : EvalState) : Res Unit :=
  (run env fuel (.visitJob e) st).toUnit

/-- `ConstantEvaluator::endVisit(Identifier)`: resolve a constant variable
declaration, recursively evaluate its initializer once (guarded by the
recursion-depth bound of 32, fatal error 5210 beyond it), then link the
identifier to the initializer result under the declared type of the
constant. -/
def endVisitIdentifier (env : Env) (fuel : Nat) (nid : NodeId) (ref : Option Nat)
    (st : EvalState) : Res Unit :=
  (run env fuel (.identJob nid ref) st).toUnit

/-- `ConstantEvaluator::evaluate`: scoped depth increment (restored on
every exit path, normal or unwinding), traversal, then the memoized value
of the root. -/
def evaluate (env : Env) (fuel : Nat) (e : Expr) (st : EvalState) : Res (Option Ty) :=
  run env fuel (.evalJob e) st

/-- The static one-shot entry point
`ConstantEvaluator::evaluate(ErrorReporter&, Expression const&)`: a fresh
session with an empty memo table. -/
def evaluateFresh (env : Env) (fuel : Nat) (e : Expr) : Res (Option Ty) :=
  evaluate env fuel e emptyState

/-- The abnormal outcome of a step, if any. -/
def Res.aborted : Res α → Option Abort
  | .ok _ _ => none
  | .abort a _ => some a

/-- Number of diagnostics with a given error id in a state. -/
def countDiag (st : EvalState) (i : Nat) : Nat :=
  (st.reported.filter (fun d => d.errorId = i)).length

/-- A memo-table entry is well formed when its evaluated value is present
and of the rational-number category. -/
def entryOk (tv : TypedValue) : Prop :=
  ∃ v, tv.evaluatedValue = some v ∧ v.category = Category.RationalNumber

/-- The memo-table invariant: every entry ever stored is well formed. -/
def memoInv (st : EvalState) : Prop :=
  ∀ p ∈ st.evaluations, entryOk p.2

/-- Relation between an entry state and the outcome of a step: the depth
counter is restored on every exit path, and the memo-table invariant is
preserved. -/
def StPres (st : EvalState) (r : Res α) : Prop :=
  r.finalState.depth = st.depth ∧ (memoInv st → memoInv r.finalState)

/-- A minimal oracle for the cyclic-constant scenarios. -/
def tsFixture : TypeSystem :=
  ⟨fun _ _ => none, fun _ _ _ => none, fun n => some (.RationalNumberType (mkRat n 1)),
    fun _ => "t"⟩

/-- Two constants defined in terms of each other:
`const a = b; const b = a;`. -/
def cycleEnv : Env :=
  ⟨tsFixture, fun d =>
    if d = 0 then some ⟨true, some (.Identifier 10 (some 1)), .IntegerType 0⟩
    else if d = 1 then some ⟨true, some (.Identifier 11 (some 0)), .IntegerType 1⟩
    else none⟩

/-- A chain of `n` constants, each defined by the next, the last by a
literal. -/
def chainEnv (n : Nat) : Env :=
  ⟨tsFixture, fun d =>
    if d < n then
      some ⟨true,
        some (if d + 1 < n then .Identifier (100 + d) (some (d + 1)) else .Literal (100 + d) 5),
        .IntegerType d⟩
    else none⟩

/-! ## State-operation lemmas -/

theorem Res.finalState_withNone (r : Res Unit) : r.withNone.finalState = r.finalState := by
  cases r <;> rfl

theorem Res.finalState_toUnit (r : Res α) : r.toUnit.finalState = r.finalState := by
  cases r <;> rfl

@[simp]
theorem Res.finalState_ok (v : α) (st : EvalState) : (Res.ok v st).finalState = st := rfl

@[simp]
theorem Res.finalState_abort {α : Type} (a : Abort) (st : EvalState) :
    (Res.abort a st : Res α).finalState = st := rfl

theorem setResult_stores (st : EvalState) (n : NodeId) (tv : TypedValue) (v : Ty)
    (h : tv.evaluatedValue = some v) (hc : v.category = Category.RationalNumber) :
    setResult st n (some tv) = { st with evaluations := (n, tv) :: st.evaluations } := by
  unfold setResult
  simp only [h, if_pos hc]

theorem setResult_none (st : EvalState) (n : NodeId) : setResult st n none = st := rfl

theorem setResult_noValue (st : EvalState) (n : NodeId) (tv : TypedValue)
    (h : tv.evaluatedValue = none) : setResult st n (some tv) = st := by
  unfold setResult
  simp only [h]

theorem setResult_notRational (st : EvalState) (n : NodeId) (tv : TypedValue) (v : Ty)
    (h : tv.evaluatedValue = some v) (hc : v.category ≠ Category.RationalNumber) :
    setResult st n (some tv) = st := by
  unfold setResult
  simp only [h, if_neg hc]

@[simp]
theorem setResult_depth (st : EvalState) (n : NodeId) (r : Option TypedValue) :
    (setResult st n r).depth = st.depth := by
  unfold setResult
  rcases r with _ | tv
  · rfl
  · rcases h : tv.evaluatedValue with _ | v <;> simp only [h] <;>
      first
        | rfl
        | (split <;> rfl)

@[simp]
theorem setResult_reported (st : EvalState) (n : NodeId) (r : Option TypedValue) :
    (setResult st n r).reported = st.reported := by
  unfold setResult
  rcases r with _ | tv
  · rfl
  · rcases h : tv.evaluatedValue with _ | v <;> simp only [h] <;>
      first
        | rfl
        | (split <;> rfl)

@[simp]
theorem setResult_oracleCalls (st : EvalState) (n : NodeId) (r : Option TypedValue) :
    (setResult st n r).oracleCalls = st.oracleCalls := by
  unfold setResult
  rcases r with _ | tv
  · rfl
  · rcases h : tv.evaluatedValue with _ | v <;> simp only [h] <;>
      first
        | rfl
        | (split <;> rfl)

@[simp]
theorem setValue_depth (st : EvalState) (n : NodeId) (v : Option Ty) :
    (setValue st n v).depth = st.depth := setResult_depth _ _ _

@[simp]
theorem setValue_reported (st : EvalState) (n : NodeId) (v : Option Ty) :
    (setValue st n v).reported = st.reported := setResult_reported _ _ _

@[simp]
theorem setValue_oracleCalls (st : EvalState) (n : NodeId) (v : Option Ty) :
    (setValue st n v).oracleCalls = st.oracleCalls := setResult_oracleCalls _ _ _

theorem setResult_memoInv (st : EvalState) (n : NodeId) (r : Option TypedValue)
    (h : memoInv st) : memoInv (setResult st n r) := by
  unfold setResult
  rcases r with _ | tv
  · exact h
  · rcases hv : tv.evaluatedValue with _ | v <;> simp only [hv]
    · exact h
    · split
      · intro p hp
        rcases List.mem_cons.mp hp with hp | hp
        · subst hp
          exact ⟨v, hv, by assumption⟩
        · exact h p hp
      · exact h

theorem setValue_memoInv (st : EvalState) (n : NodeId) (v : Option Ty)
    (h : memoInv st) : memoInv (setValue st n v) :=
  setResult_memoInv _ _ _ h

theorem memoInv_emptyState : memoInv emptyState := by
  intro p hp
  cases hp

theorem lookupEval_entryOk (l : List (NodeId × TypedValue)) (hInv : ∀ p ∈ l, entryOk p.2)
    (n : NodeId) (tv : TypedValue) (hl : lookupEval l n = some tv) : entryOk tv := by
  induction l with
  | nil => simp [lookupEval] at hl
  | cons p rest ih =>
    rw [lookupEval] at hl
    by_cases hp : p.1 = n
    · rw [if_pos hp] at hl
      cases hl
      exact hInv p (List.mem_cons_self p rest)
    · rw [if_neg hp] at hl
      exact ih (fun q hq => hInv q (List.mem_cons_of_mem p hq)) hl

/-- Under the invariant, every successful memo lookup is well formed. -/
theorem memoInv_result (st : EvalState) (h : memoInv st) (n : NodeId) (tv : TypedValue)
    (hl : st.result n = some tv) : entryOk tv :=
  lookupEval_entryOk st.evaluations h n tv hl

/-- Under the invariant, `evaluatedValue` yields a rational-category type
or nothing. -/
theorem memoInv_evaluatedValue (st : EvalState) (h : memoInv st) (n : NodeId) (v : Ty)
    (hl : st.evaluatedValue n = some v) : v.category = Category.RationalNumber := by
  unfold EvalState.evaluatedValue at hl
  rcases hr : st.result n with _ | tv <;> simp only [hr] at hl
  · cases hl
  · rcases memoInv_result st h n tv hr with ⟨w, hw, hwc⟩
    rw [hw] at hl
    cases hl
    exact hwc

/-! ## Preservation: depth restoration and the memo invariant -/

theorem stPres_evaluateBinary (l r : ℚ) (op : Token) (loc : NodeId) (st : EvalState) :
    StPres st (evaluateBinary l r op loc st) ∧
      (evaluateBinary l r op loc st).finalState.evaluations = st.evaluations := by
  cases op <;> simp only [evaluateBinary] <;>
    first
      | exact ⟨⟨rfl, fun h => h⟩, rfl⟩
      | (split
         · exact ⟨⟨rfl, fun h => h⟩, rfl⟩
         · first
             | exact ⟨⟨rfl, fun h => h⟩, rfl⟩
             | (split <;> exact ⟨⟨rfl, fun h => h⟩, rfl⟩))

theorem stPres_endVisitLiteral (env : Env) (nid : NodeId) (lit : Nat) (st : EvalState) :
    StPres st (endVisitLiteral env nid lit st) := by
  refine ⟨?_, fun h => ?_⟩
  · simp [endVisitLiteral]
  · show memoInv (setValue { st with oracleCalls := st.oracleCalls + 1 } nid
      (env.types.forLiteral lit))
    exact setValue_memoInv _ _ _ h

theorem stPres_endVisitUnaryOperation (env : Env) (nid : NodeId) (op : Token)
    (subId : NodeId) (st : EvalState) :
    StPres st (endVisitUnaryOperation env nid op subId st) := by
  unfold endVisitUnaryOperation
  rcases st.evaluatedValue subId with _ | sub
  · exact ⟨rfl, fun h => h⟩
  · refine ⟨?_, fun h => ?_⟩
    · simp
    · show memoInv (setValue { st with oracleCalls := st.oracleCalls + 1 } nid
        (env.types.unaryOperatorResult sub op))
      exact setValue_memoInv _ _ _ h

theorem stPres_binaryGeneralPath (env : Env) (nid : NodeId) (op : Token)
    (left right : Ty) (st : EvalState) :
    StPres st (binaryGeneralPath env nid op left right st) := by
  unfold binaryGeneralPath
  rcases env.types.binaryOperatorResult left op right with _ | ct
  · exact ⟨rfl, fun h => h⟩
  · refine ⟨?_, fun h => ?_⟩
    · simp
    · show memoInv (setValue { st with oracleCalls := st.oracleCalls + 1 } nid
        (some (if op.isCompareOp then Ty.BoolType else ct)))
      exact setValue_memoInv _ _ _ h

theorem stPres_withNone {st : EvalState} {r : Res Unit} (h : StPres st r) :
    StPres st r.withNone :=
  ⟨by rw [Res.finalState_withNone]; exact h.1,
   fun hi => by rw [Res.finalState_withNone]; exact h.2 hi⟩

theorem stPres_trans {st st1 : EvalState} {r : Res α} (h1 : st1.depth = st.depth)
    (h1m : memoInv st → memoInv st1) (h2 : StPres st1 r) : StPres st r :=
  ⟨by rw [h2.1]; exact h1, fun hi => h2.2 (h1m hi)⟩

theorem stPres_endVisitBinaryOperation (env : Env) (nid : NodeId) (op : Token)
    (lid rid : NodeId) (st : EvalState) :
    StPres st (endVisitBinaryOperation env nid op lid rid st) := by
  unfold endVisitBinaryOperation
  repeat' split
  all_goals try exact ⟨rfl, fun h => h⟩
  all_goals try exact stPres_binaryGeneralPath ..
  all_goals rename_i heq
  all_goals obtain ⟨⟨hd, hm⟩, he⟩ := stPres_evaluateBinary _ _ _ _ _
  all_goals rw [heq] at hd hm
  all_goals simp only [Res.finalState_ok, Res.finalState_abort] at hd hm
  · exact ⟨by simp only [Res.finalState_ok]; rw [setResult_depth]; exact hd,
      fun h => by simp only [Res.finalState_ok]; exact setResult_memoInv _ _ _ (hm h)⟩
  · exact ⟨by simp only [Res.finalState_ok]; exact hd,
      fun h => by simp only [Res.finalState_ok]; exact hm h⟩
  · exact ⟨by simp only [Res.finalState_abort]; exact hd,
      fun h => by simp only [Res.finalState_abort]; exact hm h⟩

theorem stPres_endVisitTupleExpression (nid : NodeId) (isArr : Bool)
    (comps : List NodeId) (st : EvalState) :
    StPres st (endVisitTupleExpression nid isArr comps st) := by
  unfold endVisitTupleExpression
  split
  · split
    · exact ⟨rfl, fun h => h⟩
    · exact ⟨by simp, fun h => setValue_memoInv _ _ _ h⟩
  · exact ⟨rfl, fun h => h⟩

/-- Main preservation theorem over the recursive core: every run restores
the depth counter on every exit path (the scope guard of `evaluate`) and
preserves the memo-table invariant. -/
theorem run_pres (env : Env) : ∀ (fuel : Nat) (job : Job) (st : EvalState),
    StPres st (run env fuel job st) := by
  intro fuel
  induction fuel with
  | zero => intro job st; exact ⟨rfl, fun h => h⟩
  | succ fuel ih =>
    intro job st
    cases job with
    | visitJob e =>
      cases e with
      | Literal nid lit =>
        rw [run]
        exact stPres_withNone (stPres_endVisitLiteral env nid lit st)
      | UnaryOperation nid op sub =>
        rw [run]
        rcases h : run env fuel (.visitJob sub) st with ⟨v, st1⟩ | ⟨a, st1⟩ <;>
          obtain ⟨hd, hm⟩ := ih (.visitJob sub) st <;> rw [h] at hd hm <;>
          simp only [Res.finalState_ok, Res.finalState_abort] at hd hm <;> dsimp only
        · exact stPres_withNone
            (stPres_trans hd hm (stPres_endVisitUnaryOperation env nid op sub.nodeId st1))
        · exact ⟨hd, hm⟩
      | BinaryOperation nid op l r =>
        rw [run]
        rcases h1 : run env fuel (.visitJob l) st with ⟨v1, st1⟩ | ⟨a1, st1⟩ <;>
          obtain ⟨hd1, hm1⟩ := ih (.visitJob l) st <;> rw [h1] at hd1 hm1 <;>
          simp only [Res.finalState_ok, Res.finalState_abort] at hd1 hm1 <;> dsimp only
        · rcases h2 : run env fuel (.visitJob r) st1 with ⟨v2, st2⟩ | ⟨a2, st2⟩ <;>
            obtain ⟨hd2, hm2⟩ := ih (.visitJob r) st1 <;> rw [h2] at hd2 hm2 <;>
            simp only [Res.finalState_ok, Res.finalState_abort] at hd2 hm2 <;> dsimp only
          · exact stPres_withNone (stPres_trans hd1 hm1 (stPres_trans hd2 hm2
              (stPres_endVisitBinaryOperation env nid op l.nodeId r.nodeId st2)))
          · exact stPres_trans hd1 hm1 ⟨hd2, hm2⟩
        · exact ⟨hd1, hm1⟩
      | Identifier nid ref =>
        rw [run]
        exact ih (.identJob nid ref) st
      | TupleExpression nid isArr comps =>
        rw [run]
        rcases h : run env fuel (.visitListJob comps) st with ⟨v, st1⟩ | ⟨a, st1⟩ <;>
          obtain ⟨hd, hm⟩ := ih (.visitListJob comps) st <;> rw [h] at hd hm <;>
          simp only [Res.finalState_ok, Res.finalState_abort] at hd hm <;> dsimp only
        · exact stPres_withNone (stPres_trans hd hm
            (stPres_endVisitTupleExpression nid isArr (comps.map Expr.nodeId) st1))
        · exact ⟨hd, hm⟩
    | visitListJob es =>
      cases es with
      | nil => exact ⟨rfl, fun h => h⟩
      | cons e rest =>
        rw [run]
        rcases h : run env fuel (.visitJob e) st with ⟨v, st1⟩ | ⟨a, st1⟩ <;>
          obtain ⟨hd, hm⟩ := ih (.visitJob e) st <;> rw [h] at hd hm <;>
          simp only [Res.finalState_ok, Res.finalState_abort] at hd hm <;> dsimp only
        · exact stPres_trans hd hm (ih (.visitListJob rest) st1)
        · exact ⟨hd, hm⟩
    | identJob nid ref =>
      simp only [run]
      rcases ref with _ | d
      · exact ⟨rfl, fun h => h⟩
      dsimp only
      rcases env.decls d with _ | decl
      · exact ⟨rfl, fun h => h⟩
      dsimp only
      rcases hc : decl.isConstant
      · simp only [hc, Bool.not_false, if_true]
        exact ⟨rfl, fun h => h⟩
      simp only [hc, Bool.not_true, Bool.false_eq_true, if_false]
      rcases decl.value with _ | value
      · exact ⟨rfl, fun h => h⟩
      dsimp only
      by_cases hev : st.evaluated value.nodeId
      · simp only [hev, if_true]
        rcases hr : st.result value.nodeId with _ | tv <;> simp only [hr]
        · exact ⟨rfl, fun h => h⟩
        · exact ⟨by simp, fun h => by simp only [Res.finalState_ok]; exact setResult_memoInv _ _ _ h⟩
      · simp only [hev, Bool.false_eq_true, if_false]
        by_cases hdep : st.depth > 32
        · simp only [hdep, if_true]
          exact ⟨rfl, fun h => h⟩
        · simp only [hdep, if_false]
          rcases h : run env fuel (.evalJob value) st with ⟨v1, st1⟩ | ⟨a1, st1⟩ <;>
            obtain ⟨hd, hm⟩ := ih (.evalJob value) st <;> rw [h] at hd hm <;>
            simp only [Res.finalState_ok, Res.finalState_abort] at hd hm <;> dsimp only
          · rcases hr : st1.result value.nodeId with _ | tv <;> simp only [hr]
            · exact ⟨by simp only [Res.finalState_ok]; exact hd,
                fun h => by simp only [Res.finalState_ok]; exact hm h⟩
            · refine ⟨?_, fun h => by simp only [Res.finalState_ok]; exact setResult_memoInv _ _ _ (hm h)⟩
              simp only [Res.finalState_ok]
              rw [setResult_depth]
              exact hd
          · exact ⟨by simp only [Res.finalState_abort]; exact hd,
              fun h => by simp only [Res.finalState_abort]; exact hm h⟩
    | evalJob e =>
      rw [run]
      rcases h : run env fuel (.visitJob e) { st with depth := st.depth + 1 } with ⟨v, st2⟩ | ⟨a, st2⟩ <;>
        obtain ⟨hd, hm⟩ := ih (.visitJob e) { st with depth := st.depth + 1 } <;>
        rw [h] at hd hm <;> dsimp only
      all_goals replace hd : st2.depth = st.depth + 1 := hd
      all_goals exact ⟨by show st2.depth - 1 = st.depth; omega, fun hi => hm hi⟩

/-- Depth restoration for `evaluate` itself, every exit path included. -/
theorem evaluate_depth (env : Env) (fuel : Nat) (e : Expr) (st : EvalState) :
    (evaluate env fuel e st).finalState.depth = st.depth :=
  (run_pres env fuel (.evalJob e) st).1

/-- Invariant preservation for `evaluate` itself. -/
theorem evaluate_memoInv (env : Env) (fuel : Nat) (e : Expr) (st : EvalState)
    (h : memoInv st) : memoInv (evaluate env fuel e st).finalState :=
  (run_pres env fuel (.evalJob e) st).2 h


/-! ## Lookup lemmas -/

theorem lookupEval_head (l : List (NodeId × TypedValue)) (n : NodeId) (tv : TypedValue) :
    lookupEval ((n, tv) :: l) n = some tv := by
  rw [lookupEval, if_pos rfl]

theorem lookupEval_ne (l : List (NodeId × TypedValue)) (k n : NodeId) (tv : TypedValue)
    (h : k ≠ n) : lookupEval ((k, tv) :: l) n = lookupEval l n := by
  rw [lookupEval, if_neg h]

theorem intToRat_zero : intToRat 0 = (0 : ℚ) := by
  rw [intToRat_eq]
  norm_num

/-- The truncating remainder keeps the magnitude remainder and the sign of
the dividend. -/
theorem tmod_sign_abs (a b : Int) :
    Int.tmod a b = a.sign * ((a.natAbs % b.natAbs : Nat) : Int) := by
  rcases a with (_ | m) | m <;> rcases b with (_ | k) | k <;>
    simp [Int.tmod, Int.sign, Int.natAbs]

/-! ## Claims about the direct fold (`evaluateBinary`) -/

/-- C1: for integral exact-rational operands reaching the fast-path fold,
bitwise or/and/xor are the host bitwise operations on the two numerators,
addition, subtraction and multiplication are exact rational arithmetic, and
division is the rational quotient truncated toward zero to an integer; in
particular fold(7,2,div) = 3, fold(-7,2,div) = -3, fold(6,3,or) = 7,
fold(6,3,and) = 2, fold(6,3,xor) = 5. -/
theorem claim_C1 (l r : ℚ) (loc : NodeId) (st : EvalState)
    (hl : l.den = 1) (hr : r.den = 1) :
    (evaluateBinary l r .BitOr loc st = .ok (some ((intOr l.num r.num : ℤ) : ℚ)) st) ∧
    (evaluateBinary l r .BitAnd loc st = .ok (some ((intAnd l.num r.num : ℤ) : ℚ)) st) ∧
    (evaluateBinary l r .BitXor loc st = .ok (some ((intXor l.num r.num : ℤ) : ℚ)) st) ∧
    (evaluateBinary l r .Add loc st = .ok (some (l + r)) st) ∧
    (evaluateBinary l r .Sub loc st = .ok (some (l - r)) st) ∧
    (evaluateBinary l r .Mul loc st = .ok (some (l * r)) st) ∧
    (r ≠ 0 → evaluateBinary l r .Div loc st = .ok (some ((ratTrunc (l / r) : ℤ) : ℚ)) st) ∧
    (evaluateBinary (intToRat 7) (intToRat 2) .Div 0 emptyState
      = .ok (some (intToRat 3)) emptyState) ∧
    (evaluateBinary (intToRat (-7)) (intToRat 2) .Div 0 emptyState
      = .ok (some (intToRat (-3))) emptyState) ∧
    (evaluateBinary (intToRat 6) (intToRat 3) .BitOr 0 emptyState
      = .ok (some (intToRat 7)) emptyState) ∧
    (evaluateBinary (intToRat 6) (intToRat 3) .BitAnd 0 emptyState
      = .ok (some (intToRat 2)) emptyState) ∧
    (evaluateBinary (intToRat 6) (intToRat 3) .BitXor 0 emptyState
      = .ok (some (intToRat 5)) emptyState) := by
  refine ⟨?_, ?_, ?_, ?_, ?_, ?_, ?_, by decide, by decide, by decide, by decide, by decide⟩
  · simp only [evaluateBinary, intToRat_eq]
  · simp only [evaluateBinary, intToRat_eq]
  · simp only [evaluateBinary, intToRat_eq]
  · simp only [evaluateBinary, ratAdd_eq]
  · simp only [evaluateBinary, ratSub_eq]
  · simp only [evaluateBinary, ratMul_eq]
  · intro h0
    simp only [evaluateBinary, intToRat_zero]
    rw [if_neg h0, ratDiv_eq, tdiv_num_den, intToRat_eq]

/-- C1 witness: the hypotheses hold and the theorem applies at 7 and 2. -/
theorem claim_C1_witness :
    (intToRat 7).den = 1 ∧ (intToRat 2).den = 1 ∧
    evaluateBinary (intToRat 7) (intToRat 2) .Add 0 emptyState
      = .ok (some (intToRat 7 + intToRat 2)) emptyState :=
  ⟨by decide, by decide,
    (claim_C1 (intToRat 7) (intToRat 2) 0 emptyState (by decide) (by decide)).2.2.2.1⟩

/-- C3: for a nonzero right operand, modulo of two integral rationals is the
truncating host remainder of the numerators (sign following the dividend),
and otherwise the fold returns left minus the toward-zero-truncated quotient
times right; fold(7,3,mod) = 1 and fold(-7,3,mod) = -1. -/
theorem claim_C3 (l r : ℚ) (loc : NodeId) (st : EvalState) (hr : r ≠ 0) :
    (l.den = 1 → r.den = 1 →
      evaluateBinary l r .Mod loc st = .ok (some ((Int.tmod l.num r.num : ℤ) : ℚ)) st) ∧
    (¬(l.den = 1 ∧ r.den = 1) →
      evaluateBinary l r .Mod loc st
        = .ok (some (l - ((ratTrunc (l / r) : ℤ) : ℚ) * r)) st) ∧
    (r.num * Int.tdiv l.num r.num + Int.tmod l.num r.num = l.num) ∧
    (Int.tmod l.num r.num = (l.num).sign * ((l.num.natAbs % r.num.natAbs : Nat) : ℤ)) ∧
    (evaluateBinary (intToRat 7) (intToRat 3) .Mod 0 emptyState
      = .ok (some (intToRat 1)) emptyState) ∧
    (evaluateBinary (intToRat (-7)) (intToRat 3) .Mod 0 emptyState
      = .ok (some (intToRat (-1))) emptyState) := by
  refine ⟨?_, ?_, ?_, ?_, by decide, by decide⟩
  · intro h1 h2
    simp only [evaluateBinary, intToRat_zero]
    rw [if_neg hr, if_pos ⟨h1, h2⟩, intToRat_eq]
  · intro h12
    simp only [evaluateBinary, intToRat_zero]
    rw [if_neg hr, if_neg h12, ratSub_eq, ratMul_eq, ratDiv_eq, tdiv_num_den, intToRat_eq]
  · exact Int.tdiv_add_tmod l.num r.num
  · exact tmod_sign_abs l.num r.num

/-- C3 witness: the theorem applies at 7 and 3 (and at a fractional pair). -/
theorem claim_C3_witness :
    (intToRat 3) ≠ 0 ∧ (intToRat 7).den = 1 ∧
    evaluateBinary (intToRat 7) (intToRat 3) .Mod 0 emptyState
      = .ok (some ((Int.tmod (intToRat 7).num (intToRat 3).num : ℤ) : ℚ)) emptyState :=
  ⟨by decide, by decide,
    (claim_C3 (intToRat 7) (intToRat 3) 0 emptyState (by decide)).1 (by decide) (by decide)⟩

/-- C4 counterexample: a fast-path division whose right operand is zero does
not report a recoverable diagnostic and does not let evaluation continue; it
raises the host rational exception with nothing reported. -/
theorem claim_C4_counterexample :
    evaluateBinary (intToRat 1) (intToRat 0) .Div 0 emptyState
      = .abort .HostException emptyState ∧
    (evaluateBinary (intToRat 1) (intToRat 0) .Div 0 emptyState).finalState.reported = [] := by
  exact ⟨by decide, by decide⟩

/-- C4 amended: only the modulo fold checks for a zero right operand; it
reports exactly one recoverable (non-fatal) diagnostic 1211 at the node of
the operation, the node gets no result and the memo table is unchanged, and
control returns normally so sibling evaluation continues; moreover any
binary operation one of whose operands has no evaluated value is a no-op,
so ancestors depending on the failed node also end with no result. -/
theorem claim_C4_amended (env : Env) (nid lid rid : NodeId) (st : EvalState)
    (a b : Nat) (lv : ℚ)
    (hl : st.result lid = some ⟨some (.IntegerType a), some (.RationalNumberType lv)⟩)
    (hr : st.result rid = some ⟨some (.IntegerType b), some (.RationalNumberType (intToRat 0))⟩)
    (hld : lv.den = 1) :
    (endVisitBinaryOperation env nid .Mod lid rid st
      = .ok () { st with reported := st.reported ++ [⟨1211, false, nid, "Division by 0."⟩] }) ∧
    ((endVisitBinaryOperation env nid .Mod lid rid st).finalState.evaluations
      = st.evaluations) ∧
    (∀ (pnid onid : NodeId) (op2 : Token) (st2 : EvalState),
      st2.evaluatedValue pnid = none →
      endVisitBinaryOperation env onid op2 pnid rid st2 = .ok () st2) := by
  have key : endVisitBinaryOperation env nid .Mod lid rid st
      = .ok () { st with reported := st.reported ++ [⟨1211, false, nid, "Division by 0."⟩] } := by
    unfold endVisitBinaryOperation
    simp only [hl, hr]
    rw [if_pos ⟨rfl, rfl⟩]
    have hlf : Ty.isFractional (.RationalNumberType lv) = false := by
      simp [Ty.isFractional, hld]
    have hrf : Ty.isFractional (.RationalNumberType (intToRat 0)) = false := by
      decide
    rw [hlf]
    simp only [Bool.false_eq_true, if_false]
    rw [hrf]
    simp only [Bool.false_eq_true, if_false]
    simp only [evaluateBinary, if_pos rfl]
    rfl
  refine ⟨key, by rw [key]; rfl, ?_⟩
  intro pnid onid op2 st2 h2
  unfold endVisitBinaryOperation
  unfold EvalState.evaluatedValue at h2
  rcases hres : st2.result pnid with _ | tv <;>
    rcases hres2 : st2.result rid with _ | rtv <;>
      simp only [hres, hres2] at h2 ⊢
  simp only [h2]

/-- C4 witness: the amended theorem applies at a concrete state holding an
integral 5 and an integral 0. -/
theorem claim_C4_amended_witness :
    (⟨[(1, ⟨some (.IntegerType 8), some (.RationalNumberType (intToRat 5))⟩),
       (2, ⟨some (.IntegerType 8), some (.RationalNumberType (intToRat 0))⟩)], [], 0, 0⟩
        : EvalState).result 1
      = some ⟨some (.IntegerType 8), some (.RationalNumberType (intToRat 5))⟩ ∧
    endVisitBinaryOperation ⟨⟨fun _ _ => none, fun _ _ _ => none, fun _ => none, fun _ => ""⟩,
        fun _ => none⟩ 3 .Mod 1 2
      ⟨[(1, ⟨some (.IntegerType 8), some (.RationalNumberType (intToRat 5))⟩),
        (2, ⟨some (.IntegerType 8), some (.RationalNumberType (intToRat 0))⟩)], [], 0, 0⟩
      = .ok () ⟨[(1, ⟨some (.IntegerType 8), some (.RationalNumberType (intToRat 5))⟩),
        (2, ⟨some (.IntegerType 8), some (.RationalNumberType (intToRat 0))⟩)],
        [⟨1211, false, 3, "Division by 0."⟩], 0, 0⟩ :=
  ⟨by decide,
    (claim_C4_amended ⟨⟨fun _ _ => none, fun _ _ _ => none, fun _ => none, fun _ => ""⟩,
        fun _ => none⟩ 3 1 2 _ 8 8 (intToRat 5) (by decide) (by decide) (by decide)).1⟩



/-! ## Claims about the binary delegation path, the fast-path typing and
the unary path -/

/-- C5: a binary operation on two folded operands that misses the fast path
delegates to the left operand type; a failed resolution reports fatal error
6020 naming both operand types and the operator and records no result (the
request aborts by unwinding), while a successful resolution stores the
boolean type for comparison operators and the resolved common type
otherwise. -/
theorem claim_C5 (env : Env) (nid lid rid : NodeId) (op : Token) (st : EvalState)
    (ltv rtv : TypedValue) (lt rt left right : Ty)
    (hl : st.result lid = some ltv) (hr : st.result rid = some rtv)
    (hlv : ltv.evaluatedValue = some left) (hrv : rtv.evaluatedValue = some right)
    (hlt : ltv.sourceType = some lt) (hrt : rtv.sourceType = some rt)
    (hgen : left.category ≠ Category.RationalNumber ∨
      right.category ≠ Category.RationalNumber ∨
      lt.category ≠ Category.Integer ∨ rt.category ≠ Category.Integer) :
    (env.types.binaryOperatorResult left op right = none →
      endVisitBinaryOperation env nid op lid rid st
        = .abort .FatalError { st with
            oracleCalls := st.oracleCalls + 1,
            reported := st.reported ++ [⟨6020, true, nid,
              "Operator " ++ op.toText ++ " not compatible with types "
                ++ env.types.typeName left ++ " and " ++ env.types.typeName right⟩] }) ∧
    (∀ ct, env.types.binaryOperatorResult left op right = some ct →
      endVisitBinaryOperation env nid op lid rid st
        = .ok () (setValue { st with oracleCalls := st.oracleCalls + 1 } nid
            (some (if op.isCompareOp then Ty.BoolType else ct)))) := by
  have key : endVisitBinaryOperation env nid op lid rid st
      = binaryGeneralPath env nid op left right st := by
    unfold endVisitBinaryOperation
    simp only [hl, hr, hlv, hrv, hlt, hrt]
    cases left <;> cases right <;> try rfl
    dsimp only
    rw [if_neg]
    rintro ⟨h1, h2⟩
    rcases hgen with h | h | h | h
    · exact h rfl
    · exact h rfl
    · exact h h1
    · exact h h2
  rw [key]
  unfold binaryGeneralPath
  constructor
  · intro hn
    simp only [hn]
    rfl
  · intro ct hct
    simp only [hct]

/-- C5 witness: a boolean-typed and another-typed operand pair with a
resolution oracle that fails, at a concrete memo state. -/
theorem claim_C5_witness :
    (⟨[(1, ⟨some Ty.BoolType, some (.RationalNumberType (intToRat 1))⟩),
       (2, ⟨some (.OtherType 4), some (.RationalNumberType (intToRat 2))⟩)], [], 0, 0⟩
        : EvalState).result 1
      = some ⟨some Ty.BoolType, some (.RationalNumberType (intToRat 1))⟩ ∧
    endVisitBinaryOperation ⟨⟨fun _ _ => none, fun _ _ _ => none, fun _ => none,
        fun t => if t = Ty.BoolType then "bool" else "other"⟩, fun _ => none⟩
      9 .Add 1 2
      ⟨[(1, ⟨some Ty.BoolType, some (.RationalNumberType (intToRat 1))⟩),
        (2, ⟨some (.OtherType 4), some (.RationalNumberType (intToRat 2))⟩)], [], 0, 0⟩
      = .abort .FatalError
        ⟨[(1, ⟨some Ty.BoolType, some (.RationalNumberType (intToRat 1))⟩),
          (2, ⟨some (.OtherType 4), some (.RationalNumberType (intToRat 2))⟩)],
         [⟨6020, true, 9, "Operator + not compatible with types other and other"⟩], 0, 1⟩ :=
  ⟨by decide,
    by
      have h := (claim_C5 ⟨⟨fun _ _ => none, fun _ _ _ => none, fun _ => none,
          fun t => if t = Ty.BoolType then "bool" else "other"⟩, fun _ => none⟩
        9 1 2 .Add
        ⟨[(1, ⟨some Ty.BoolType, some (.RationalNumberType (intToRat 1))⟩),
          (2, ⟨some (.OtherType 4), some (.RationalNumberType (intToRat 2))⟩)], [], 0, 0⟩
        ⟨some Ty.BoolType, some (.RationalNumberType (intToRat 1))⟩
        ⟨some (.OtherType 4), some (.RationalNumberType (intToRat 2))⟩
        Ty.BoolType (.OtherType 4)
        (.RationalNumberType (intToRat 1)) (.RationalNumberType (intToRat 2))
        (by decide) (by decide) (by decide) (by decide) (by decide) (by decide)
        (by right; right; left; decide)).1 rfl
      exact h.trans (by decide)⟩

/-- C7: a fast-path fold whose arithmetic succeeds stores a result typed by
the pre-fold inferred type of the left operand (not that of the right one, not a joint
type), wrapping the computed exact rational value. -/
theorem claim_C7 (env : Env) (nid lid rid : NodeId) (op : Token) (st st1 : EvalState)
    (a b : Nat) (lv rv v : ℚ)
    (hl : st.result lid = some ⟨some (.IntegerType a), some (.RationalNumberType lv)⟩)
    (hr : st.result rid = some ⟨some (.IntegerType b), some (.RationalNumberType rv)⟩)
    (hlf : lv.den = 1) (hrf : rv.den = 1)
    (hfold : evaluateBinary lv rv op nid st = .ok (some v) st1) :
    endVisitBinaryOperation env nid op lid rid st
      = .ok () { st1 with evaluations :=
          (nid, ⟨some (.IntegerType a), some (.RationalNumberType v)⟩) :: st1.evaluations } ∧
    ({ st1 with evaluations :=
        (nid, ⟨some (.IntegerType a), some (.RationalNumberType v)⟩) :: st1.evaluations
          : EvalState}).result nid
      = some ⟨some (.IntegerType a), some (.RationalNumberType v)⟩ := by
  constructor
  · unfold endVisitBinaryOperation
    simp only [hl, hr]
    rw [if_pos ⟨rfl, rfl⟩]
    have hlfr : Ty.isFractional (.RationalNumberType lv) = false := by
      simp [Ty.isFractional, hlf]
    have hrfr : Ty.isFractional (.RationalNumberType rv) = false := by
      simp [Ty.isFractional, hrf]
    rw [hlfr]
    simp only [Bool.false_eq_true, if_false]
    rw [hrfr]
    simp only [Bool.false_eq_true, if_false]
    rw [hfold]
    dsimp only
    rw [setResult_stores _ _ _ (Ty.RationalNumberType v) rfl rfl]
  · exact lookupEval_head _ _ _

/-- C7 witness: folding 6 and 3 under bitwise or with distinct left and
right integer source types stores the left type and the value 7, and the
stored source type differs from the right operand type. -/
theorem claim_C7_witness :
    evaluateBinary (intToRat 6) (intToRat 3) .BitOr 9
        (⟨[(1, ⟨some (.IntegerType 8), some (.RationalNumberType (intToRat 6))⟩),
           (2, ⟨some (.IntegerType 16), some (.RationalNumberType (intToRat 3))⟩)], [], 0, 0⟩)
      = .ok (some (intToRat 7))
        (⟨[(1, ⟨some (.IntegerType 8), some (.RationalNumberType (intToRat 6))⟩),
           (2, ⟨some (.IntegerType 16), some (.RationalNumberType (intToRat 3))⟩)], [], 0, 0⟩) ∧
    endVisitBinaryOperation ⟨⟨fun _ _ => none, fun _ _ _ => none, fun _ => none, fun _ => ""⟩,
        fun _ => none⟩ 9 .BitOr 1 2
      ⟨[(1, ⟨some (.IntegerType 8), some (.RationalNumberType (intToRat 6))⟩),
        (2, ⟨some (.IntegerType 16), some (.RationalNumberType (intToRat 3))⟩)], [], 0, 0⟩
      = .ok () ⟨[(9, ⟨some (.IntegerType 8), some (.RationalNumberType (intToRat 7))⟩),
        (1, ⟨some (.IntegerType 8), some (.RationalNumberType (intToRat 6))⟩),
        (2, ⟨some (.IntegerType 16), some (.RationalNumberType (intToRat 3))⟩)], [], 0, 0⟩ ∧
    some (Ty.IntegerType 8) ≠ some (Ty.IntegerType 16) := by
  refine ⟨by decide, ?_, by decide⟩
  have h := (claim_C7 ⟨⟨fun _ _ => none, fun _ _ _ => none, fun _ => none, fun _ => ""⟩,
      fun _ => none⟩ 9 1 2 .BitOr
    ⟨[(1, ⟨some (.IntegerType 8), some (.RationalNumberType (intToRat 6))⟩),
      (2, ⟨some (.IntegerType 16), some (.RationalNumberType (intToRat 3))⟩)], [], 0, 0⟩
    ⟨[(1, ⟨some (.IntegerType 8), some (.RationalNumberType (intToRat 6))⟩),
      (2, ⟨some (.IntegerType 16), some (.RationalNumberType (intToRat 3))⟩)], [], 0, 0⟩
    8 16 (intToRat 6) (intToRat 3) (intToRat 7)
    (by decide) (by decide) (by decide) (by decide) (by decide)).1
  exact h.trans (by decide)

/-- C10: when the type of a folded unary operand has no unary-operator result for
the operator, the evaluator records no result and emits no diagnostic (the
state is unchanged but for the oracle-call count), and evaluation continues
normally; in the analogous binary delegation failure a fatal type error 6020
is reported instead. -/
theorem claim_C10 (env : Env) (nid subId : NodeId) (op : Token) (st : EvalState)
    (sub : Ty)
    (hsub : st.evaluatedValue subId = some sub)
    (hnone : env.types.unaryOperatorResult sub op = none) :
    (endVisitUnaryOperation env nid op subId st
      = .ok () { st with oracleCalls := st.oracleCalls + 1 }) ∧
    ((endVisitUnaryOperation env nid op subId st).finalState.evaluations = st.evaluations) ∧
    ((endVisitUnaryOperation env nid op subId st).finalState.reported = st.reported) ∧
    (∀ (left right : Ty) (bnid : NodeId),
      env.types.binaryOperatorResult left op right = none →
      binaryGeneralPath env bnid op left right st
        = .abort .FatalError { st with
            oracleCalls := st.oracleCalls + 1,
            reported := st.reported ++ [⟨6020, true, bnid,
              "Operator " ++ op.toText ++ " not compatible with types "
                ++ env.types.typeName left ++ " and " ++ env.types.typeName right⟩] }) := by
  have key : endVisitUnaryOperation env nid op subId st
      = .ok () { st with oracleCalls := st.oracleCalls + 1 } := by
    unfold endVisitUnaryOperation
    simp only [hsub]
    rw [hnone]
    rfl
  refine ⟨key, by rw [key]; rfl, by rw [key]; rfl, ?_⟩
  intro left right bnid hbn
  unfold binaryGeneralPath
  simp only [hbn]
  rfl

/-- C10 witness: a concrete state and oracle with no unary result. -/
theorem claim_C10_witness :
    (⟨[(5, ⟨some Ty.BoolType, some (.RationalNumberType (intToRat 4))⟩)], [], 0, 0⟩
      : EvalState).evaluatedValue 5 = some (.RationalNumberType (intToRat 4)) ∧
    endVisitUnaryOperation ⟨⟨fun _ _ => none, fun _ _ _ => none, fun _ => none, fun _ => ""⟩,
        fun _ => none⟩ 6 .Sub 5
      ⟨[(5, ⟨some Ty.BoolType, some (.RationalNumberType (intToRat 4))⟩)], [], 0, 0⟩
      = .ok () ⟨[(5, ⟨some Ty.BoolType, some (.RationalNumberType (intToRat 4))⟩)], [], 0, 1⟩ :=
  ⟨by decide,
    (claim_C10 ⟨⟨fun _ _ => none, fun _ _ _ => none, fun _ => none, fun _ => ""⟩, fun _ => none⟩
      6 5 .Sub
      ⟨[(5, ⟨some Ty.BoolType, some (.RationalNumberType (intToRat 4))⟩)], [], 0, 0⟩
      (.RationalNumberType (intToRat 4)) (by decide) rfl).1⟩



/-! ## Claims about the memo table and the identifier path -/

theorem result_setResult_ne (st : EvalState) (n : NodeId) (r : Option TypedValue)
    (m : NodeId) (hne : n ≠ m) : (setResult st n r).result m = st.result m := by
  rcases r with _ | tv
  · rw [setResult_none]
  · rcases h : tv.evaluatedValue with _ | v
    · rw [setResult_noValue _ _ _ h]
    · by_cases hc : v.category = Category.RationalNumber
      · rw [setResult_stores _ _ _ _ h hc]
        exact lookupEval_ne _ _ _ _ hne
      · rw [setResult_notRational _ _ _ _ h hc]

theorem result_setResult_self (st : EvalState) (n : NodeId) (tv : TypedValue) (v : Ty)
    (h : tv.evaluatedValue = some v) (hc : v.category = Category.RationalNumber) :
    (setResult st n (some tv)).result n = some tv := by
  rw [setResult_stores _ _ _ _ h hc]
  exact lookupEval_head _ _ _

/-- A successful `evaluate` returns exactly the memoized value of the root
node in the final state. -/
theorem evaluate_ok_value (env : Env) (fuel : Nat) (e : Expr) (st : EvalState)
    (v : Option Ty) (st1 : EvalState) (h : evaluate env fuel e st = .ok v st1) :
    v = st1.evaluatedValue e.nodeId := by
  unfold evaluate at h
  cases fuel with
  | zero => cases h
  | succ fuel =>
    rw [run] at h
    rcases heq : run env fuel (.visitJob e) { st with depth := st.depth + 1 }
        with ⟨w, st2⟩ | ⟨a, st2⟩ <;> rw [heq] at h
    · injection h with h1 h2
      subst h2
      exact h1.symm
    · cases h

/-- C6: `setResult` (and through it `setValue`) stores an entry exactly when
the supplied result is present with an evaluated value of the
rational-number category, and is a no-op otherwise; consequently the memo
table only ever holds rational-number values, and both lookups and
`evaluate` itself only produce such a type or nothing. -/
theorem claim_C6 :
    (∀ (st : EvalState) (n : NodeId) (tv : TypedValue) (v : Ty),
      tv.evaluatedValue = some v → v.category = Category.RationalNumber →
      setResult st n (some tv) = { st with evaluations := (n, tv) :: st.evaluations }) ∧
    (∀ (st : EvalState) (n : NodeId), setResult st n none = st) ∧
    (∀ (st : EvalState) (n : NodeId) (tv : TypedValue),
      tv.evaluatedValue = none → setResult st n (some tv) = st) ∧
    (∀ (st : EvalState) (n : NodeId) (tv : TypedValue) (v : Ty),
      tv.evaluatedValue = some v → v.category ≠ Category.RationalNumber →
      setResult st n (some tv) = st) ∧
    (∀ (st : EvalState) (n : NodeId), setValue st n none = st) ∧
    (∀ (env : Env) (fuel : Nat) (e : Expr) (st : EvalState),
      memoInv st → memoInv (evaluate env fuel e st).finalState) ∧
    (∀ (st : EvalState), memoInv st → ∀ (n : NodeId) (v : Ty),
      st.evaluatedValue n = some v → v.category = Category.RationalNumber) ∧
    (∀ (env : Env) (fuel : Nat) (e : Expr) (st : EvalState) (v : Ty) (st1 : EvalState),
      memoInv st → evaluate env fuel e st = .ok (some v) st1 →
      v.category = Category.RationalNumber) := by
  refine ⟨setResult_stores, setResult_none, setResult_noValue, setResult_notRational,
    fun st n => rfl, evaluate_memoInv, memoInv_evaluatedValue, ?_⟩
  intro env fuel e st v st1 hinv heval
  have hv := evaluate_ok_value env fuel e st (some v) st1 heval
  have hinv1 : memoInv st1 := by
    have := evaluate_memoInv env fuel e st hinv
    rw [heval] at this
    exact this
  exact memoInv_evaluatedValue st1 hinv1 e.nodeId v hv.symm

/-- C6 witness: the storing case applies at a concrete rational entry, and
a boolean result is dropped. -/
theorem claim_C6_witness :
    (⟨some Ty.BoolType, some (.RationalNumberType (intToRat 2))⟩ : TypedValue).evaluatedValue
      = some (.RationalNumberType (intToRat 2)) ∧
    setResult emptyState 4 (some ⟨some Ty.BoolType, some (.RationalNumberType (intToRat 2))⟩)
      = { emptyState with evaluations :=
          [(4, ⟨some Ty.BoolType, some (.RationalNumberType (intToRat 2))⟩)] } ∧
    setResult emptyState 4 (some ⟨some Ty.BoolType, some Ty.BoolType⟩) = emptyState :=
  ⟨by decide,
    claim_C6.1 emptyState 4 ⟨some Ty.BoolType, some (.RationalNumberType (intToRat 2))⟩
      (.RationalNumberType (intToRat 2)) rfl rfl,
    claim_C6.2.2.2.1 emptyState 4 ⟨some Ty.BoolType, some Ty.BoolType⟩ Ty.BoolType rfl
      (by decide)⟩

/-- The identifier hook with an already-memoized initializer: no recursive
evaluation happens; the identifier is linked to the memoized value under the
declared type of the constant. -/
theorem identJob_memoized (env : Env) (fuel : Nat) (nid : NodeId) (d : Nat)
    (decl : VariableDeclaration) (value : Expr) (tv : TypedValue) (st : EvalState)
    (hdc : env.decls d = some decl) (hic : decl.isConstant = true)
    (hv : decl.value = some value) (hm : st.result value.nodeId = some tv) :
    run env (fuel + 1) (.identJob nid (some d)) st
      = .ok none (setResult st nid (some ⟨some decl.declaredType, tv.evaluatedValue⟩)) := by
  have hev : st.evaluated value.nodeId = true := by
    unfold EvalState.evaluated
    rw [hm]
    rfl
  simp only [run, hdc, hic, hv]
  simp only [Bool.not_true, Bool.false_eq_true, if_false, hev, if_true, hm]

/-- C8: an identifier that does not reference a constant-valued variable
declaration with an initializer records no result and reports nothing; one
whose initializer is folded (before the call or during it) stores the
evaluated value of the initializer re-typed under the own type of the declaration. -/
theorem claim_C8 (env : Env) (fuel : Nat) (nid : NodeId) (st : EvalState) :
    (endVisitIdentifier env (fuel + 1) nid none st = .ok () st) ∧
    (∀ d, env.decls d = none →
      endVisitIdentifier env (fuel + 1) nid (some d) st = .ok () st) ∧
    (∀ d decl, env.decls d = some decl → decl.isConstant = false →
      endVisitIdentifier env (fuel + 1) nid (some d) st = .ok () st) ∧
    (∀ d decl, env.decls d = some decl → decl.isConstant = true → decl.value = none →
      endVisitIdentifier env (fuel + 1) nid (some d) st = .ok () st) ∧
    (∀ d decl value tv, env.decls d = some decl → decl.isConstant = true →
      decl.value = some value → st.result value.nodeId = some tv →
      endVisitIdentifier env (fuel + 1) nid (some d) st
        = .ok () (setResult st nid (some ⟨some decl.declaredType, tv.evaluatedValue⟩))) ∧
    (∀ d decl value v1 st1 tv, env.decls d = some decl → decl.isConstant = true →
      decl.value = some value → st.evaluated value.nodeId = false → ¬ st.depth > 32 →
      run env fuel (.evalJob value) st = .ok v1 st1 → st1.result value.nodeId = some tv →
      endVisitIdentifier env (fuel + 1) nid (some d) st
        = .ok () (setResult st1 nid (some ⟨some decl.declaredType, tv.evaluatedValue⟩))) := by
  refine ⟨?_, ?_, ?_, ?_, ?_, ?_⟩
  · unfold endVisitIdentifier
    rw [run]
    rfl
  · intro d hdc
    unfold endVisitIdentifier
    simp only [run, hdc]
    rfl
  · intro d decl hdc hic
    unfold endVisitIdentifier
    simp only [run, hdc, hic, Bool.not_false, if_true]
    rfl
  · intro d decl hdc hic hv
    unfold endVisitIdentifier
    simp only [run, hdc, hic, Bool.not_true, Bool.false_eq_true, if_false, hv]
    rfl
  · intro d decl value tv hdc hic hv hm
    unfold endVisitIdentifier
    rw [identJob_memoized env fuel nid d decl value tv st hdc hic hv hm]
    rfl
  · intro d decl value v1 st1 tv hdc hic hv hev hdep hrun hres
    unfold endVisitIdentifier
    simp only [run, hdc, hic, Bool.not_true, Bool.false_eq_true, if_false, hv, hev,
      if_false, hdep, hrun, hres]
    rfl

/-- C8 witness: a concrete environment where the declaration is not a
constant, and one where the initializer is already folded. -/
theorem claim_C8_witness :
    (⟨⟨fun _ _ => none, fun _ _ _ => none, fun _ => none, fun _ => ""⟩,
      fun d => if d = 0 then some ⟨false, some (.Literal 7 0), .IntegerType 1⟩ else none⟩
        : Env).decls 0 = some ⟨false, some (.Literal 7 0), .IntegerType 1⟩ ∧
    endVisitIdentifier ⟨⟨fun _ _ => none, fun _ _ _ => none, fun _ => none, fun _ => ""⟩,
        fun d => if d = 0 then some ⟨false, some (.Literal 7 0), .IntegerType 1⟩ else none⟩
      1 9 (some 0) emptyState = .ok () emptyState :=
  ⟨rfl,
    (claim_C8 ⟨⟨fun _ _ => none, fun _ _ _ => none, fun _ => none, fun _ => ""⟩,
        fun d => if d = 0 then some ⟨false, some (.Literal 7 0), .IntegerType 1⟩ else none⟩
      0 9 emptyState).2.2.1 0 ⟨false, some (.Literal 7 0), .IntegerType 1⟩
      rfl rfl⟩



/-- C9: once the initializer of a constant is in the memo table of the session,
evaluating identifiers that reference it never re-evaluates the initializer:
the step is independent of the remaining recursion budget, makes no
type-system oracle call, leaves the entry of the initializer untouched, and any
number of references (in any order, across top-level calls) receive the
identical memoized value re-typed under the declared type. -/
theorem claim_C9 (env : Env) (fuel1 fuel2 : Nat) (d : Nat)
    (decl : VariableDeclaration) (value : Expr) (tv : TypedValue) (st : EvalState)
    (hdc : env.decls d = some decl) (hic : decl.isConstant = true)
    (hv : decl.value = some value) (hm : st.result value.nodeId = some tv) :
    (∀ nid, endVisitIdentifier env (fuel1 + 1) nid (some d) st
      = .ok () (setResult st nid (some ⟨some decl.declaredType, tv.evaluatedValue⟩))) ∧
    (∀ nid, endVisitIdentifier env (fuel1 + 1) nid (some d) st
      = endVisitIdentifier env (fuel2 + 1) nid (some d) st) ∧
    (∀ nid, (endVisitIdentifier env (fuel1 + 1) nid (some d) st).finalState.oracleCalls
      = st.oracleCalls) ∧
    (∀ nid, nid ≠ value.nodeId →
      (endVisitIdentifier env (fuel1 + 1) nid (some d) st).finalState.result value.nodeId
        = some tv) ∧
    (∀ n1 n2, n1 ≠ value.nodeId → n2 ≠ value.nodeId → memoInv st →
      endVisitIdentifier env (fuel2 + 1) n2 (some d)
          (endVisitIdentifier env (fuel1 + 1) n1 (some d) st).finalState
        = .ok () (setResult (endVisitIdentifier env (fuel1 + 1) n1 (some d) st).finalState
            n2 (some ⟨some decl.declaredType, tv.evaluatedValue⟩)) ∧
      (endVisitIdentifier env (fuel2 + 1) n2 (some d)
          (endVisitIdentifier env (fuel1 + 1) n1 (some d) st).finalState).finalState.oracleCalls
        = st.oracleCalls) := by
  have h1 : ∀ (fl : Nat) (nid : NodeId) (st0 : EvalState),
      st0.result value.nodeId = some tv →
      endVisitIdentifier env (fl + 1) nid (some d) st0
        = .ok () (setResult st0 nid (some ⟨some decl.declaredType, tv.evaluatedValue⟩)) := by
    intro fl nid st0 hm0
    unfold endVisitIdentifier
    rw [identJob_memoized env fl nid d decl value tv st0 hdc hic hv hm0]
    rfl
  have hfin : ∀ (fl : Nat) (nid : NodeId),
      (endVisitIdentifier env (fl + 1) nid (some d) st).finalState
        = setResult st nid (some ⟨some decl.declaredType, tv.evaluatedValue⟩) := by
    intro fl nid
    rw [h1 fl nid st hm]
    rfl
  refine ⟨fun nid => h1 fuel1 nid st hm, ?_, ?_, ?_, ?_⟩
  · intro nid
    rw [h1 fuel1 nid st hm, h1 fuel2 nid st hm]
  · intro nid
    rw [hfin fuel1 nid, setResult_oracleCalls]
  · intro nid hne
    rw [hfin fuel1 nid]
    rw [result_setResult_ne st nid _ value.nodeId hne]
    exact hm
  · intro n1 n2 hne1 hne2 hinv
    have hm1 : ((endVisitIdentifier env (fuel1 + 1) n1 (some d) st).finalState).result
        value.nodeId = some tv := by
      rw [hfin fuel1 n1, result_setResult_ne st n1 _ value.nodeId hne1]
      exact hm
    constructor
    · exact h1 fuel2 n2 _ hm1
    · rw [show (endVisitIdentifier env (fuel2 + 1) n2 (some d)
          (endVisitIdentifier env (fuel1 + 1) n1 (some d) st).finalState).finalState
        = setResult (endVisitIdentifier env (fuel1 + 1) n1 (some d) st).finalState n2
            (some ⟨some decl.declaredType, tv.evaluatedValue⟩) from by
          rw [h1 fuel2 n2 _ hm1]
          rfl]
      rw [setResult_oracleCalls, hfin fuel1 n1, setResult_oracleCalls]

/-- C9 witness: a session whose memo already holds the initializer of a
constant; two references receive the shared value without oracle calls. -/
theorem claim_C9_witness :
    (⟨⟨fun _ _ => none, fun _ _ _ => none, fun _ => none, fun _ => ""⟩,
      fun d => if d = 0 then some ⟨true, some (.Literal 7 0), .IntegerType 1⟩ else none⟩
        : Env).decls 0 = some ⟨true, some (.Literal 7 0), .IntegerType 1⟩ ∧
    endVisitIdentifier ⟨⟨fun _ _ => none, fun _ _ _ => none, fun _ => none, fun _ => ""⟩,
        fun d => if d = 0 then some ⟨true, some (.Literal 7 0), .IntegerType 1⟩ else none⟩
      1 9 (some 0)
      ⟨[(7, ⟨some (.RationalNumberType (intToRat 5)), some (.RationalNumberType (intToRat 5))⟩)],
        [], 0, 3⟩
      = .ok () ⟨[(9, ⟨some (.IntegerType 1), some (.RationalNumberType (intToRat 5))⟩),
          (7, ⟨some (.RationalNumberType (intToRat 5)), some (.RationalNumberType (intToRat 5))⟩)],
        [], 0, 3⟩ := by
  refine ⟨rfl, ?_⟩
  have h := (claim_C9 ⟨⟨fun _ _ => none, fun _ _ _ => none, fun _ => none, fun _ => ""⟩,
      fun d => if d = 0 then some ⟨true, some (.Literal 7 0), .IntegerType 1⟩ else none⟩
    0 0 0 ⟨true, some (.Literal 7 0), .IntegerType 1⟩ (.Literal 7 0)
    ⟨some (.RationalNumberType (intToRat 5)), some (.RationalNumberType (intToRat 5))⟩
    ⟨[(7, ⟨some (.RationalNumberType (intToRat 5)), some (.RationalNumberType (intToRat 5))⟩)],
      [], 0, 3⟩
    rfl rfl rfl (by decide)).1 9
  exact h.trans (by decide)



/-! ## Claim C2: cycle detection, depth bound, scope-guarded counter -/

theorem evaluated_nil (errs : List Diag) (dep oc : Nat) (x : NodeId) :
    (⟨[], errs, dep, oc⟩ : EvalState).evaluated x = false := rfl

/-- Evaluating the k-th constant of a long enough chain from depth `k + 1`
with an empty memo table climbs the chain and fails fatally with exactly one
5210 diagnostic at the identifier visited at depth 33. -/
theorem chain_ident (n : Nat) (hn : 33 ≤ n) :
    ∀ (m k : Nat), k + m = 32 → ∀ (nid : NodeId) (errs : List Diag) (oc f : Nat),
      3 * m + 1 ≤ f →
      run (chainEnv n) f (.identJob nid (some k)) ⟨[], errs, k + 1, oc⟩
        = .abort .FatalError ⟨[], errs ++ [⟨5210, true, (if k = 32 then nid else 131),
            "Cyclic constant definition (or maximum recursion depth exhausted)."⟩],
            k + 1, oc⟩ := by
  intro m
  induction m with
  | zero =>
    intro k hk nid errs oc f hf
    obtain rfl : k = 32 := by omega
    obtain ⟨f0, rfl⟩ : ∃ g, f = g + 1 := ⟨f - 1, by omega⟩
    simp only [run, chainEnv]
    rw [if_pos (by omega : (32 : Nat) < n)]
    dsimp only
    try simp only [Bool.not_true, Bool.false_eq_true, if_false]
    try simp only [evaluated_nil, Bool.false_eq_true, if_false]
    rw [if_pos (by omega : 32 + 1 > 32)]
    dsimp only [reportFatal]
    simp
  | succ m ih =>
    intro k hk nid errs oc f hf
    have hkn : k < n := by omega
    have hk1n : k + 1 < n := by omega
    obtain ⟨g, rfl⟩ : ∃ g, f = g + 3 := ⟨f - 3, by omega⟩
    simp only [run, chainEnv]
    rw [if_pos hkn]
    dsimp only
    rw [if_pos hk1n]
    try simp only [Bool.not_true, Bool.false_eq_true, if_false]
    try simp only [evaluated_nil, Bool.false_eq_true, if_false]
    rw [if_neg (by omega : ¬ k + 1 > 32)]
    try simp only [run]
    try dsimp only
    have hih := ih (k + 1) (by omega) (100 + k) errs oc g (by omega)
    simp only [chainEnv] at hih
    rw [hih]
    have hloc : (if k + 1 = 32 then 100 + k else 131) = 131 := by
      split <;> omega
    rw [hloc]
    dsimp only
    rw [if_neg (by omega : ¬ k = 32)]
    simp only [Nat.add_sub_cancel]

/-- C2: the depth counter is restored on every exit path of `evaluate`
(scope-guard behavior, fatal unwinding included); evaluating either of two
mutually recursive constants terminates with exactly one fatal 5210
diagnostic and a restored counter; every chain of 33 or more constants,
each referencing the next, fails the same way (one 5210 diagnostic, fatal
abort, no overflow), from any sufficient recursion budget; a chain of 32
constants still folds without any diagnostic. -/
theorem claim_C2 :
    (∀ (env : Env) (fuel : Nat) (e : Expr) (st : EvalState),
      (evaluate env fuel e st).finalState.depth = st.depth) ∧
    ((evaluate cycleEnv 200 (.Identifier 20 (some 0)) emptyState).aborted
        = some .FatalError ∧
      countDiag (evaluate cycleEnv 200 (.Identifier 20 (some 0)) emptyState).finalState 5210
        = 1 ∧
      (evaluate cycleEnv 200 (.Identifier 20 (some 0)) emptyState).finalState.reported.length
        = 1 ∧
      (evaluate cycleEnv 200 (.Identifier 20 (some 0)) emptyState).finalState.depth = 0) ∧
    ((evaluate cycleEnv 200 (.Identifier 21 (some 1)) emptyState).aborted
        = some .FatalError ∧
      countDiag (evaluate cycleEnv 200 (.Identifier 21 (some 1)) emptyState).finalState 5210
        = 1 ∧
      (evaluate cycleEnv 200 (.Identifier 21 (some 1)) emptyState).finalState.reported.length
        = 1 ∧
      (evaluate cycleEnv 200 (.Identifier 21 (some 1)) emptyState).finalState.depth = 0) ∧
    (∀ (n fuel : Nat), 33 ≤ n → 100 ≤ fuel →
      evaluate (chainEnv n) fuel (.Identifier 99 (some 0)) emptyState
        = .abort .FatalError ⟨[], [⟨5210, true, 131,
            "Cyclic constant definition (or maximum recursion depth exhausted)."⟩], 0, 0⟩) ∧
    ((evaluate (chainEnv 32) 200 (.Identifier 99 (some 0)) emptyState).aborted = none ∧
      (evaluate (chainEnv 32) 200 (.Identifier 99 (some 0)) emptyState).finalState.reported
        = []) := by
  refine ⟨fun env fuel e st => (run_pres env fuel (.evalJob e) st).1,
    ⟨by decide, by decide, by decide, by decide⟩,
    ⟨by decide, by decide, by decide, by decide⟩, ?_, ⟨by decide, by decide⟩⟩
  intro n fuel hn hf
  obtain ⟨g, rfl⟩ : ∃ g, fuel = g + 2 := ⟨fuel - 2, by omega⟩
  unfold evaluate
  simp only [run]
  dsimp only [emptyState]
  have hci := chain_ident n hn 32 0 (by omega) 99 [] 0 g (by omega)
  simp only [Nat.zero_add] at hci
  norm_num at hci
  rw [hci]
  try dsimp only
  try norm_num

/-- C2 witness: the depth-restoration clause at a concrete run, and the
chain clause at exactly 33 constants. -/
theorem claim_C2_witness :
    (33 : Nat) ≤ 33 ∧ (100 : Nat) ≤ 100 ∧
    evaluate (chainEnv 33) 100 (.Identifier 99 (some 0)) emptyState
      = .abort .FatalError ⟨[], [⟨5210, true, 131,
          "Cyclic constant definition (or maximum recursion depth exhausted)."⟩], 0, 0⟩ :=
  ⟨le_refl 33, le_refl 100, claim_C2.2.2.2.1 33 100 (le_refl 33) (le_refl 100)⟩


end ConstEval
